import Mathlib

/-
Verification development for the fintracker repository.

Shallow embedding of the Portfolio ledger implemented in src/fin.py and
src/portfolioCLI.py.  SQLite tables become Lean lists of rows; the
`holdings` and `performance` tables are association lists keyed by their
primary keys (ticker resp. date).  Real-valued SQLite columns become ℚ
(the ledger code performs only field arithmetic); the optimizer section
uses ℝ where the source takes square roots.  The Quote Service
(yfinance) is modelled as an oracle `px : String → Option ℚ`; wall-clock
dates are passed in as parameters.  Fallible operations return
`Except`/`Option`-style results mirroring the source's error prints and
raised exceptions.
-/

/-- A row of the `holdings` table (ticker is the association-list key;
columns `shares REAL, purchase_price REAL`). -/
structure Holding where
  shares : ℚ
  purchase_price : ℚ
deriving DecidableEq

/-- A row of the append-only `transactions` table.  The `date TEXT`
column (wall-clock timestamp, display only) is omitted; `id` is the
list position. -/
structure Txn where
  ticker : String
  shares : ℚ
  purchase_price : ℚ
deriving DecidableEq

/-- A row of the `alerts` table (threshold price alerts). -/
structure Alert where
  ticker : String
  threshold : ℚ
  direction : String
deriving DecidableEq

/-- A row of the `price_alerts` table, which holds the percentage-change
alerts (`id INTEGER PRIMARY KEY AUTOINCREMENT` kept for row identity). -/
structure PercentageAlert where
  id : ℕ
  ticker : String
  percentage_change : ℚ
  last_checked_price : ℚ
deriving DecidableEq

/-- The database state created by `Portfolio.create_table`: the five
tables the claims are about (the `dividends` table plays no role in any
claim and is omitted).  `performance` is keyed by its `date TEXT PRIMARY
KEY` column. -/
structure PortfolioState where
  holdings : List (String × Holding)
  transactions : List Txn
  alerts : List Alert
  price_alerts : List PercentageAlert
  performance : List (String × ℚ)
deriving DecidableEq

/-- Python's `ticker.upper()` (`String.toUpper` stated over the
character list so that concrete instances evaluate in the kernel). -/
def upperStr (s : String) : String := ⟨s.data.map Char.toUpper⟩

/-- `SELECT ... WHERE key = t` on a primary-key table: first matching row. -/
def lookupT {β : Type} (t : String) : List (String × β) → Option β
  | [] => none
  | p :: rest => if p.1 = t then some p.2 else lookupT t rest

/-- `INSERT OR REPLACE` on a table whose key is a primary key: replace
the (unique) existing row in place, or append a fresh row. -/
def upsertRow {β : Type} (t : String) (b : β) : List (String × β) → List (String × β)
  | [] => [(t, b)]
  | p :: rest => if p.1 = t then (t, b) :: rest else p :: upsertRow t b rest

/-- `DELETE FROM ... WHERE key = t`. -/
def eraseKey {β : Type} (t : String) : List (String × β) → List (String × β)
  | [] => []
  | p :: rest => if p.1 = t then eraseKey t rest else p :: eraseKey t rest

/-- `Portfolio.add_holding(ticker, shares, purchase_price)` (src/fin.py
lines 71-82).  The SQL
`INSERT OR REPLACE INTO holdings VALUES (?, COALESCE((SELECT shares FROM
holdings WHERE ticker = ?) + ?, ?), ?)` adds the incoming shares to any
existing count and stores the incoming price as the new
`purchase_price`; a transaction row is appended.  There is no
validation of `shares`.  (The src/portfolioCLI.py variant is the same
statement with the quoted current market price in place of the explicit
`purchase_price` argument.) -/
def add_holding (s : PortfolioState) (ticker : String) (shares purchase_price : ℚ) :
    PortfolioState :=
  let t := upperStr ticker
  let newShares :=
    match lookupT t s.holdings with
    | some h => h.shares + shares
    | none => shares
  { s with
    holdings := upsertRow t ⟨newShares, purchase_price⟩ s.holdings
    transactions := s.transactions ++ [⟨t, shares, purchase_price⟩] }

/-- The error reports printed by `Portfolio.remove_holding`. -/
inductive RemoveError where
  | insufficientShares
  | noHoldings
deriving DecidableEq

/-- `Portfolio.remove_holding(ticker, shares)` (src/fin.py lines 84-109,
identical in src/portfolioCLI.py lines 126-151).  Selling more than held
or selling an unknown ticker only prints an error (state unchanged);
otherwise the row is updated, deleted when the count reaches exactly 0,
and a transaction with negated shares and price 0 is appended. -/
def remove_holding (s : PortfolioState) (ticker : String) (shares : ℚ) :
    PortfolioState × Option RemoveError :=
  let t := upperStr ticker
  match lookupT t s.holdings with
  | none => (s, some RemoveError.noHoldings)
  | some h =>
    if shares > h.shares then
      (s, some RemoveError.insufficientShares)
    else
      let new_shares := h.shares - shares
      let holdings' :=
        if new_shares = 0 then eraseKey t s.holdings
        else s.holdings.map (fun p => if p.1 = t then (p.1, { p.2 with shares := new_shares }) else p)
      ({ s with
          holdings := holdings'
          transactions := s.transactions ++ [⟨t, -shares, 0⟩] }, none)

/-- The total computed by `Portfolio.get_current_value`: for each
holding whose current price the Quote Service yields, accumulate
`current_price * shares`; quote failures skip the ticker. -/
def totalValue (px : String → Option ℚ) (hs : List (String × Holding)) : ℚ :=
  hs.foldl
    (fun acc p =>
      match px p.1 with
      | some cur => acc + cur * p.2.shares
      | none => acc) 0

/-- `Portfolio.track_performance` (src/fin.py lines 268-275): compute
the current total value, then run the plain
`INSERT INTO performance (date, value) VALUES (?, ?)` with today's
date.  Because `date` is the table's PRIMARY KEY, the insert raises an
IntegrityError when a row for the date already exists; the transaction
rolls back and the state is unchanged. -/
def track_performance (px : String → Option ℚ) (s : PortfolioState) (today : String) :
    Except String PortfolioState :=
  if (lookupT today s.performance).isSome then
    Except.error "UNIQUE constraint failed: performance.date"
  else
    Except.ok { s with performance := s.performance ++ [(today, totalValue px s.holdings)] }

/-- The firing condition of the first loop of `Portfolio.check_alerts`
(src/fin.py lines 231-244): with a fetched current price, fire when
`(direction == 'above' and current_price > threshold) or
(direction == 'below' and current_price < threshold)`; a quote failure
skips the alert. -/
def alertFires (px : String → Option ℚ) (a : Alert) : Bool :=
  match px a.ticker with
  | none => false
  | some cur =>
    (a.direction = "above" && decide (cur > a.threshold)) ||
      (a.direction = "below" && decide (cur < a.threshold))

/-- The firing condition of the second loop of `Portfolio.check_alerts`
(src/fin.py lines 246-266): with a fetched current price, compute
`change = ((current_price - last_checked_price) / last_checked_price) * 100`
and fire when `abs(change) >= percentage_change`. -/
def pctFires (px : String → Option ℚ) (a : PercentageAlert) : Bool :=
  match px a.ticker with
  | none => false
  | some cur =>
    decide (|(cur - a.last_checked_price) / a.last_checked_price * 100| ≥ a.percentage_change)

/-- The second loop of `Portfolio.check_alerts` over the fetched
snapshot of `price_alerts` rows.  `rows` is the live table; each firing
runs `UPDATE price_alerts SET last_checked_price = ? WHERE ticker = ?`,
which rewrites EVERY row with the firing alert's ticker.  Returns the
final table and the list of snapshot rows that fired, in order. -/
def checkPctLoop (px : String → Option ℚ) :
    List PercentageAlert → List PercentageAlert → List PercentageAlert × List PercentageAlert
  | rows, [] => (rows, [])
  | rows, a :: rest =>
    match px a.ticker with
    | none => checkPctLoop px rows rest
    | some cur =>
      if |(cur - a.last_checked_price) / a.last_checked_price * 100| ≥ a.percentage_change then
        let out := checkPctLoop px
          (rows.map fun r =>
            if r.ticker = a.ticker then { r with last_checked_price := cur } else r)
          rest
        (out.1, a :: out.2)
      else
        checkPctLoop px rows rest

/-- `Portfolio.check_alerts` (src/fin.py lines 231-266,
src/portfolioCLI.py lines 273-308): loop one reports threshold alerts
without writing anything; loop two evaluates the percentage alerts
against a snapshot and re-arms baselines on firing.  Returns the new
state, the fired threshold alerts and the fired percentage alerts. -/
def check_alerts (px : String → Option ℚ) (s : PortfolioState) :
    PortfolioState × List Alert × List PercentageAlert :=
  let priceFired := s.alerts.filter (alertFires px)
  let pct := checkPctLoop px s.price_alerts s.price_alerts
  ({ s with price_alerts := pct.1 }, priceFired, pct.2)

/-- A ledger mutation, for stating state-machine invariants over
sequences of operations. -/
inductive Op where
  | add (ticker : String) (shares purchase_price : ℚ)
  | remove (ticker : String) (shares : ℚ)

def applyOp (s : PortfolioState) : Op → PortfolioState
  | Op.add t sh pr => add_holding s t sh pr
  | Op.remove t sh => (remove_holding s t sh).1

def applyOps (s : PortfolioState) (ops : List Op) : PortfolioState :=
  ops.foldl applyOp s

/-- The spec's holdings invariant: every row of the holdings table has
strictly positive shares (equivalently: a ticker appears iff its shares
are > 0, and shares are never negative). -/
def HoldingsInv (hs : List (String × Holding)) : Prop :=
  ∀ p ∈ hs, 0 < p.2.shares

/-- Whether an operation is an `add` with a positive share count (the
quantity the spec's `InvalidQuantity` guard was supposed to enforce). -/
def addPositive : Op → Prop
  | Op.add _ sh _ => 0 < sh
  | Op.remove _ _ => True

/-- The freshly-created database: all tables empty. -/
def emptyState : PortfolioState := ⟨[], [], [], [], []⟩

/- ----------------------------------------------------------------
Allocation optimizer, `Portfolio.optimize_portfolio`
(src/portfolioCLI.py lines 470-506).  Daily price data, returns, means
and covariances are exact rationals; only the square root in the
volatility lives in ℝ.
---------------------------------------------------------------- -/

/-- `returns = data.pct_change()` for one ticker's price column: the
list of day-over-day simple returns (pandas drops the leading NaN from
every aggregate that consumes it). -/
def pct_change (p : List ℚ) : List ℚ :=
  (p.zip p.tail).map fun q => q.2 / q.1 - 1

/-- `returns.mean()` for one column (pandas sample mean). -/
def mean (l : List ℚ) : ℚ := l.sum / l.length

/-- One entry of `returns.cov()`: pandas sample covariance of two
aligned return columns, with the default `ddof=1` divisor `n - 1`. -/
def sampleCov (x y : List ℚ) : ℚ :=
  ((x.zip y).map fun q => (q.1 - mean x) * (q.2 - mean y)).sum / ((x.length : ℚ) - 1)

/-- `portfolio_return = np.sum(mean_returns * weights) * 252` from
`portfolio_performance`. -/
def portfolio_return {n : ℕ} (w μ : Fin n → ℚ) : ℚ :=
  (∑ i, μ i * w i) * 252

/-- `np.dot(cov_matrix, weights)`. -/
def covDot {n : ℕ} (cov : Fin n → Fin n → ℚ) (w : Fin n → ℚ) : Fin n → ℚ :=
  fun i => ∑ j, cov i j * w j

/-- `np.dot(weights.T, np.dot(cov_matrix, weights))`. -/
def quadForm {n : ℕ} (w : Fin n → ℚ) (cov : Fin n → Fin n → ℚ) : ℚ :=
  ∑ i, w i * covDot cov w i

/-- `portfolio_std_dev = np.sqrt(np.dot(weights.T, np.dot(cov_matrix,
weights))) * np.sqrt(252)` from `portfolio_performance`. -/
noncomputable def portfolio_std_dev {n : ℕ} (w : Fin n → ℚ) (cov : Fin n → Fin n → ℚ) : ℝ :=
  Real.sqrt ((quadForm w cov : ℚ) : ℝ) * Real.sqrt 252

/-- The objective `neg_sharpe_ratio` of the source:
`-(p_ret - risk_free_rate) / p_std_dev`, with no guard on the
denominator.  A zero standard deviation makes the division's divisor 0,
which is undefined (numpy emits ±inf/nan with a warning); that case is
embedded as `none`. -/
noncomputable def neg_sharpe {n : ℕ} (w μ : Fin n → ℚ) (cov : Fin n → Fin n → ℚ)
    (rf : ℚ) : Option ℝ :=
  if portfolio_std_dev w cov = 0 then none
  else some (-(((portfolio_return w μ - rf : ℚ) : ℝ)) / portfolio_std_dev w cov)

/-- The default `risk_free_rate=0.01` of `neg_sharpe_ratio`, which the
`minimize(..., args=(mean_returns, cov_matrix))` call leaves in place. -/
def default_risk_free_rate : ℚ := 0.01

/-- The single equality constraint handed to the solver:
`lambda x: np.sum(x) - 1` (an `eq` constraint, i.e. the value must be
0). -/
def constraint_fun {n : ℕ} (x : Fin n → ℚ) : ℚ :=
  (∑ i, x i) - 1

/-- `bounds = tuple((0, 1) for _ in range(len(tickers)))`. -/
def code_bounds (n : ℕ) : Fin n → ℚ × ℚ := fun _ => (0, 1)

/-- `init_guess = [1/len(tickers)] * len(tickers)`. -/
def init_guess (n : ℕ) : Fin n → ℚ := fun _ => 1 / (n : ℚ)

/-- Whether some snapshot row for ticker `t` fires during the
percentage-alert loop (used to characterise the loop's net effect on
the table). -/
def tickerFired (px : String → Option ℚ) (l : List PercentageAlert) (t : String) : Bool :=
  l.any fun a => pctFires px a && decide (a.ticker = t)

/-- The net effect of the percentage-alert loop on one table row: its
baseline becomes the ticker's current price exactly when some snapshot
row with the same ticker fired. -/
def updAll (px : String → Option ℚ) (l : List PercentageAlert) (r : PercentageAlert) :
    PercentageAlert :=
  if tickerFired px l r.ticker then
    { r with last_checked_price := (px r.ticker).getD r.last_checked_price }
  else r

/-- Number of rows of the `performance` table with a given date key. -/
def countKey (d : String) (l : List (String × ℚ)) : ℕ :=
  (l.filter fun p => decide (p.1 = d)).length

/- Spec-side renderings (for the refinement claim about the optimizer
formulation): definitions below follow the spec text of §4.4
word-for-word, to be compared with the source-derived definitions
above. -/

/-- Spec §4.4 step 1: daily simple returns
`r_t = price_t/price_{t-1} - 1` for `t = 1 .. n-1`. -/
def spec_daily_returns (p : List ℚ) : List ℚ :=
  (List.range (p.length - 1)).map fun t => p.getD (t + 1) 0 / p.getD t 0 - 1

/-- Spec §4.4 step 3: expected portfolio return
`252 * sum(w_i * mean_returns_i)`. -/
def spec_annual_return {n : ℕ} (w μ : Fin n → ℚ) : ℚ :=
  252 * ∑ i, w i * μ i

/-- Spec §4.4 step 3: portfolio volatility `sqrt(252) * sqrt(wᵗ·Cov·w)`. -/
noncomputable def spec_annual_volatility {n : ℕ} (w : Fin n → ℚ)
    (cov : Fin n → Fin n → ℚ) : ℝ :=
  Real.sqrt 252 * Real.sqrt ((∑ i, ∑ j, w i * cov i j * w j : ℚ) : ℝ)

/-- Spec §4.4 step 4: minimize
`-(annual_return - risk_free_rate) / annual_volatility`, the division
again embedded as `none` when the volatility is 0. -/
noncomputable def spec_neg_sharpe {n : ℕ} (w μ : Fin n → ℚ) (cov : Fin n → Fin n → ℚ)
    (rf : ℚ) : Option ℝ :=
  if spec_annual_volatility w cov = 0 then none
  else some (-(((spec_annual_return w μ - rf : ℚ) : ℝ)) / spec_annual_volatility w cov)

/- ----------------------------------------------------------------
Helper lemmas
---------------------------------------------------------------- -/

theorem lookupT_upsert {β : Type} (t : String) (b : β) (rows : List (String × β)) :
    lookupT t (upsertRow t b rows) = some b := by
  induction rows with
  | nil => simp [upsertRow, lookupT]
  | cons p rest ih =>
    by_cases h : p.1 = t
    · simp [upsertRow, lookupT, h]
    · simp [upsertRow, lookupT, h, ih]

theorem lookupT_some_mem {β : Type} {t : String} {b : β} {rows : List (String × β)}
    (h : lookupT t rows = some b) : (t, b) ∈ rows := by
  induction rows with
  | nil => simp [lookupT] at h
  | cons p rest ih =>
    by_cases hp : p.1 = t
    · simp [lookupT, hp] at h
      subst hp
      rw [← h]
      simp
    · simp [lookupT, hp] at h
      exact List.mem_cons_of_mem _ (ih h)

theorem mem_upsertRow {β : Type} {t : String} {b : β} {rows : List (String × β)}
    {p : String × β} (h : p ∈ upsertRow t b rows) : p = (t, b) ∨ p ∈ rows := by
  induction rows with
  | nil => simpa [upsertRow] using h
  | cons q rest ih =>
    by_cases hq : q.1 = t
    · simp [upsertRow, hq] at h
      rcases h with h | h
      · exact Or.inl h
      · exact Or.inr (List.mem_cons_of_mem _ h)
    · simp [upsertRow, hq] at h
      rcases h with h | h
      · exact Or.inr (by simp [h])
      · rcases ih h with h1 | h1
        · exact Or.inl h1
        · exact Or.inr (List.mem_cons_of_mem _ h1)

theorem mem_eraseKey {β : Type} {t : String} {rows : List (String × β)}
    {p : String × β} (h : p ∈ eraseKey t rows) : p ∈ rows := by
  induction rows with
  | nil => simp [eraseKey] at h
  | cons q rest ih =>
    by_cases hq : q.1 = t
    · simp [eraseKey, hq] at h
      exact List.mem_cons_of_mem _ (ih h)
    · simp [eraseKey, hq] at h
      rcases h with h | h
      · simp [h]
      · exact List.mem_cons_of_mem _ (ih h)

theorem checkPctLoop_snd (px : String → Option ℚ) (rows l : List PercentageAlert) :
    (checkPctLoop px rows l).2 = l.filter (pctFires px) := by
  induction l generalizing rows with
  | nil => simp [checkPctLoop]
  | cons a rest ih =>
    cases hpx : px a.ticker with
    | none => simp [checkPctLoop, hpx, List.filter, pctFires, ih]
    | some cur =>
      by_cases hc :
          |(cur - a.last_checked_price) / a.last_checked_price * 100| ≥ a.percentage_change
      · simp [checkPctLoop, hpx, hc, List.filter, pctFires, ih]
      · simp [checkPctLoop, hpx, hc, List.filter, pctFires, ih]

theorem tickerFired_cons (px : String → Option ℚ) (a : PercentageAlert)
    (l : List PercentageAlert) (t : String) :
    tickerFired px (a :: l) t
      = ((pctFires px a && decide (a.ticker = t)) || tickerFired px l t) := by
  simp [tickerFired]

theorem updAll_cons_none (px : String → Option ℚ) (a : PercentageAlert)
    (l : List PercentageAlert) (hfa : pctFires px a = false) (r : PercentageAlert) :
    updAll px (a :: l) r = updAll px l r := by
  simp [updAll, tickerFired_cons, hfa]

theorem updAll_cons_fire (px : String → Option ℚ) (a : PercentageAlert)
    (l : List PercentageAlert) (cur : ℚ) (hpx : px a.ticker = some cur)
    (hfa : pctFires px a = true) (r : PercentageAlert) :
    updAll px (a :: l) r
      = updAll px l (if r.ticker = a.ticker then { r with last_checked_price := cur } else r) := by
  rcases r with ⟨rid, rt, rp, rl⟩
  by_cases hr : rt = a.ticker
  · subst hr
    cases h2 : tickerFired px l a.ticker
    · simp [updAll, tickerFired_cons, hfa, h2, hpx]
    · simp [updAll, tickerFired_cons, hfa, h2, hpx]
  · simp [updAll, tickerFired_cons, hfa, hr, Ne.symm hr]

theorem checkPctLoop_fst (px : String → Option ℚ) (rows l : List PercentageAlert) :
    (checkPctLoop px rows l).1 = rows.map (updAll px l) := by
  induction l generalizing rows with
  | nil =>
    rw [checkPctLoop]
    have h : ∀ r ∈ rows, updAll px [] r = r := fun r _ => by simp [updAll, tickerFired]
    rw [List.map_congr_left h]
    simp
  | cons a rest ih =>
    cases hpx : px a.ticker with
    | none =>
      have hfa : pctFires px a = false := by simp [pctFires, hpx]
      rw [checkPctLoop]
      simp only [hpx]
      rw [ih]
      exact (List.map_congr_left fun r _ => (updAll_cons_none px a rest hfa r)).symm
    | some cur =>
      by_cases hc :
          |(cur - a.last_checked_price) / a.last_checked_price * 100| ≥ a.percentage_change
      · have hfa : pctFires px a = true := by simp [pctFires, hpx, hc]
        rw [checkPctLoop]
        simp only [hpx, hc, if_true]
        rw [ih, List.map_map]
        exact (List.map_congr_left fun r _ => (updAll_cons_fire px a rest cur hpx hfa r)).symm
      · have hfa : pctFires px a = false := by simp [pctFires, hpx, hc]
        rw [checkPctLoop]
        simp only [hpx]
        rw [if_neg hc]
        rw [ih]
        exact (List.map_congr_left fun r _ => (updAll_cons_none px a rest hfa r)).symm

theorem quadForm_eq_double_sum {n : ℕ} (w : Fin n → ℚ) (cov : Fin n → Fin n → ℚ) :
    quadForm w cov = ∑ i, ∑ j, w i * cov i j * w j := by
  simp [quadForm, covDot, Finset.mul_sum, mul_assoc]

theorem portfolio_return_eq_spec {n : ℕ} (w μ : Fin n → ℚ) :
    portfolio_return w μ = spec_annual_return w μ := by
  unfold portfolio_return spec_annual_return
  rw [mul_comm, Finset.sum_congr rfl fun i _ => mul_comm (μ i) (w i)]

theorem portfolio_std_dev_eq_spec {n : ℕ} (w : Fin n → ℚ) (cov : Fin n → Fin n → ℚ) :
    portfolio_std_dev w cov = spec_annual_volatility w cov := by
  unfold portfolio_std_dev spec_annual_volatility
  rw [quadForm_eq_double_sum, mul_comm]

theorem neg_sharpe_eq_spec {n : ℕ} (w μ : Fin n → ℚ) (cov : Fin n → Fin n → ℚ) (rf : ℚ) :
    neg_sharpe w μ cov rf = spec_neg_sharpe w μ cov rf := by
  unfold neg_sharpe spec_neg_sharpe
  rw [portfolio_return_eq_spec, portfolio_std_dev_eq_spec]

theorem neg_sharpe_none_of_quadForm_zero {n : ℕ} (w μ : Fin n → ℚ)
    (cov : Fin n → Fin n → ℚ) (rf : ℚ) (h : quadForm w cov = 0) :
    neg_sharpe w μ cov rf = none := by
  unfold neg_sharpe portfolio_std_dev
  rw [h]
  simp

theorem pct_change_eq_spec (p : List ℚ) : pct_change p = spec_daily_returns p := by
  induction p with
  | nil => rfl
  | cons a rest ih =>
    cases rest with
    | nil => rfl
    | cons b rest2 =>
      have h1 : pct_change (a :: b :: rest2) = (b / a - 1) :: pct_change (b :: rest2) := by
        simp [pct_change]
      have h2 : spec_daily_returns (a :: b :: rest2)
          = (b / a - 1) :: spec_daily_returns (b :: rest2) := by
        unfold spec_daily_returns
        simp only [List.length_cons]
        rw [show rest2.length + 1 + 1 - 1 = rest2.length + 1 from rfl,
          show rest2.length + 1 - 1 = rest2.length from rfl,
          List.range_succ_eq_map, List.map_cons, List.map_map]
        simp [Function.comp]
      rw [h1, h2, ih]

theorem remove_holding_oversell (s : PortfolioState) (ticker : String) (k : ℚ)
    (h : Holding) (hl : lookupT (upperStr ticker) s.holdings = some h)
    (hk : k > h.shares) :
    remove_holding s ticker k = (s, some RemoveError.insufficientShares) := by
  simp [remove_holding, hl, hk]

theorem remove_holding_shares_nonneg (s : PortfolioState) (ticker : String) (k : ℚ)
    (hs : ∀ p ∈ s.holdings, 0 ≤ p.2.shares) :
    ∀ p ∈ (remove_holding s ticker k).1.holdings, 0 ≤ p.2.shares := by
  intro p hp
  cases hl : lookupT (upperStr ticker) s.holdings with
  | none =>
    simp [remove_holding, hl] at hp
    exact hs p hp
  | some h =>
    by_cases hk : k > h.shares
    · simp [remove_holding, hl, hk] at hp
      exact hs p hp
    · by_cases hz : h.shares - k = 0
      · simp [remove_holding, hl, hk, hz] at hp
        exact hs p (mem_eraseKey hp)
      · simp [remove_holding, hl, hk, hz, List.mem_map] at hp
        obtain ⟨a, b, hab, habp⟩ := hp
        by_cases hqt : a = upperStr ticker
        · rw [if_pos hqt] at habp
          rw [← habp]
          simpa using sub_nonneg.mpr (not_lt.mp hk)
        · rw [if_neg hqt] at habp
          rw [← habp]
          exact hs (a, b) hab

theorem remove_holding_preserves_inv (s : PortfolioState) (ticker : String) (k : ℚ)
    (hs : HoldingsInv s.holdings) :
    HoldingsInv (remove_holding s ticker k).1.holdings := by
  intro p hp
  cases hl : lookupT (upperStr ticker) s.holdings with
  | none =>
    simp [remove_holding, hl] at hp
    exact hs p hp
  | some h =>
    by_cases hk : k > h.shares
    · simp [remove_holding, hl, hk] at hp
      exact hs p hp
    · by_cases hz : h.shares - k = 0
      · simp [remove_holding, hl, hk, hz] at hp
        exact hs p (mem_eraseKey hp)
      · simp [remove_holding, hl, hk, hz, List.mem_map] at hp
        obtain ⟨a, b, hab, habp⟩ := hp
        by_cases hqt : a = upperStr ticker
        · rw [if_pos hqt] at habp
          rw [← habp]
          have hle : 0 ≤ h.shares - k := sub_nonneg.mpr (not_lt.mp hk)
          simpa using lt_of_le_of_ne hle (Ne.symm hz)
        · rw [if_neg hqt] at habp
          rw [← habp]
          exact hs (a, b) hab

theorem add_holding_preserves_inv (s : PortfolioState) (ticker : String) (sh pr : ℚ)
    (hs : HoldingsInv s.holdings) (hsh : 0 < sh) :
    HoldingsInv (add_holding s ticker sh pr).holdings := by
  intro p hp
  simp only [add_holding] at hp
  rcases mem_upsertRow hp with h1 | h1
  · rw [h1]
    cases hl : lookupT (upperStr ticker) s.holdings with
    | none => simpa [hl] using hsh
    | some h =>
      have hpos : 0 < h.shares := hs _ (lookupT_some_mem hl)
      simpa [hl] using add_pos hpos hsh
  · exact hs p h1

theorem lookupT_append_of_none {β : Type} (d : String) (l : List (String × β)) (v : β)
    (h : lookupT d l = none) : lookupT d (l ++ [(d, v)]) = some v := by
  induction l with
  | nil => simp [lookupT]
  | cons p rest ih =>
    by_cases hp : p.1 = d
    · simp [lookupT, hp] at h
    · simp [lookupT, hp] at h ⊢
      exact ih h

theorem countKey_append_self (d : String) (l : List (String × ℚ)) (v : ℚ) :
    countKey d (l ++ [(d, v)]) = countKey d l + 1 := by
  simp [countKey, List.filter_append]

theorem countKey_eq_zero (d : String) (l : List (String × ℚ))
    (h : lookupT d l = none) : countKey d l = 0 := by
  induction l with
  | nil => simp [countKey]
  | cons p rest ih =>
    by_cases hp : p.1 = d
    · simp [lookupT, hp] at h
    · simp [lookupT, hp] at h
      simpa [countKey, hp] using ih h

theorem check_alerts_pct_fired (px : String → Option ℚ) (s : PortfolioState) :
    (check_alerts px s).2.2 = s.price_alerts.filter (pctFires px) := by
  simp [check_alerts, checkPctLoop_snd]

theorem check_alerts_pct_rows (px : String → Option ℚ) (s : PortfolioState) :
    (check_alerts px s).1.price_alerts = s.price_alerts.map (updAll px s.price_alerts) := by
  simp [check_alerts, checkPctLoop_fst]

/- ----------------------------------------------------------------
Claim theorems
---------------------------------------------------------------- -/

/-- Claim C1, counterexample: `add_position("AAPL", 10, 150.0)` followed
by `add_position("AAPL", 10, 170.0)` does NOT leave the claimed
share-weighted average cost of 160: the stored cost column is simply
overwritten with the most recent purchase price, 170 (shares do
accumulate to 20). -/
theorem c1_counterexample :
    ¬ (lookupT "AAPL"
        (add_holding (add_holding emptyState "AAPL" 10 150) "AAPL" 10 170).holdings
        = some ⟨20, 160⟩)
    ∧ lookupT "AAPL"
        (add_holding (add_holding emptyState "AAPL" 10 150) "AAPL" 10 170).holdings
      = some ⟨20, 170⟩ := by
  constructor
  · norm_num [emptyState, add_holding, lookupT, upsertRow, show upperStr "AAPL" = "AAPL" from rfl]
  · norm_num [emptyState, add_holding, lookupT, upsertRow, show upperStr "AAPL" = "AAPL" from rfl]

/-- Claim C1, amended: for an existing holding, `add_position` sets the
share count to the sum of old and incoming shares, but sets
`average_cost` to the price of the most recent purchase (last-price
semantics), not to the share-weighted average. -/
theorem c1_amended (s : PortfolioState) (ticker : String) (sh pr : ℚ) (h : Holding)
    (hl : lookupT (upperStr ticker) s.holdings = some h) :
    lookupT (upperStr ticker) (add_holding s ticker sh pr).holdings
      = some ⟨h.shares + sh, pr⟩ := by
  simp only [add_holding, hl]
  exact lookupT_upsert _ _ _

/-- Claim C1, witness: the amended statement evaluated on the spec's own
scenario (10 shares held at 150, buy 10 more at 170). -/
theorem c1_witness :
    lookupT (upperStr "AAPL")
        (add_holding { emptyState with holdings := [("AAPL", ⟨10, 150⟩)] } "AAPL" 10 170).holdings
      = some ⟨10 + 10, 170⟩ :=
  c1_amended { emptyState with holdings := [("AAPL", ⟨10, 150⟩)] } "AAPL" 10 170 ⟨10, 150⟩ rfl

/-- Claim C4: a `remove_position(ticker, k)` call with `k` greater than
the held shares is a no-op that reports `InsufficientShares` (state,
holdings and transaction log all unchanged), and `remove_position`
never drives a share count negative. -/
theorem c4_remove_position_guard (s : PortfolioState) (ticker : String) (k : ℚ) :
    (∀ h : Holding, lookupT (upperStr ticker) s.holdings = some h → k > h.shares →
        remove_holding s ticker k = (s, some RemoveError.insufficientShares))
    ∧ ((∀ p ∈ s.holdings, 0 ≤ p.2.shares) →
        ∀ p ∈ (remove_holding s ticker k).1.holdings, 0 ≤ p.2.shares) :=
  ⟨fun h hl hk => remove_holding_oversell s ticker k h hl hk,
   fun hs => remove_holding_shares_nonneg s ticker k hs⟩

/-- Claim C4, witness: removing 5 shares from a 3-share holding. -/
theorem c4_witness :
    remove_holding { emptyState with holdings := [("A", ⟨3, 10⟩)] } "A" 5
      = ({ emptyState with holdings := [("A", ⟨3, 10⟩)] }, some RemoveError.insufficientShares)
    ∧ ∀ p ∈ (remove_holding { emptyState with holdings := [("A", ⟨3, 10⟩)] } "A" 5).1.holdings,
        0 ≤ p.2.shares :=
  ⟨(c4_remove_position_guard _ "A" 5).1 ⟨3, 10⟩ rfl (by norm_num),
   (c4_remove_position_guard _ "A" 5).2 (by
      intro p hp
      simp [emptyState] at hp
      simp [hp])⟩

/-- Claim C6, counterexample: `add_position("A", 0, 10)` is NOT rejected
with `InvalidQuantity`: the source has no quantity validation, so a
holding row with 0 shares is created and a transaction is appended. -/
theorem c6_counterexample :
    (add_holding emptyState "A" 0 10).holdings = [("A", ⟨0, 10⟩)]
    ∧ (add_holding emptyState "A" 0 10).transactions = [⟨"A", 0, 10⟩] := by
  constructor
  · rfl
  · rfl

/-- Claim C6, amended: `add_position` performs no quantity validation:
even for `shares ≤ 0` the holding row is upserted (shares added to any
existing count, cost set to the incoming price) and a transaction is
appended — nothing fails and the mutation is not aborted. -/
theorem c6_amended (s : PortfolioState) (ticker : String) (sh pr : ℚ) (_hs0 : sh ≤ 0) :
    (add_holding s ticker sh pr).transactions = s.transactions ++ [⟨upperStr ticker, sh, pr⟩]
    ∧ lookupT (upperStr ticker) (add_holding s ticker sh pr).holdings
        = some ⟨(match lookupT (upperStr ticker) s.holdings with
                 | some h => h.shares + sh
                 | none => sh), pr⟩ := by
  refine ⟨rfl, ?_⟩
  simp only [add_holding]
  exact lookupT_upsert _ _ _

/-- Claim C6, witness: the amended statement evaluated at
`add_position("A", 0, 10)` on the empty ledger. -/
theorem c6_witness :
    ((add_holding emptyState "A" 0 10).transactions
        = emptyState.transactions ++ [⟨upperStr "A", 0, 10⟩])
    ∧ lookupT (upperStr "A") (add_holding emptyState "A" 0 10).holdings
        = some ⟨(match lookupT (upperStr "A") emptyState.holdings with
                 | some h => h.shares + 0
                 | none => 0), 10⟩ :=
  c6_amended emptyState "A" 0 10 (by norm_num)

/-- Claim C2, counterexample: with one holding of 1 share of "A",
`track_performance` at price 10 and then again on the SAME date at
price 20 does not upsert: the second call fails with the `performance`
table's primary-key violation, and the surviving sample holds the
FIRST call's value 10, not the second call's value 20. -/
theorem c2_counterexample :
    track_performance (fun t => if t = "A" then some 10 else none)
        { emptyState with holdings := [("A", ⟨1, 10⟩)] } "2024-01-01"
      = Except.ok
          { emptyState with
              holdings := [("A", ⟨1, 10⟩)], performance := [("2024-01-01", 10)] }
    ∧ track_performance (fun t => if t = "A" then some 20 else none)
        { emptyState with holdings := [("A", ⟨1, 10⟩)], performance := [("2024-01-01", 10)] }
        "2024-01-01"
      = Except.error "UNIQUE constraint failed: performance.date"
    ∧ totalValue (fun t => if t = "A" then some 20 else none) [("A", (⟨1, 10⟩ : Holding))] = 20
    ∧ lookupT "2024-01-01" [(("2024-01-01" : String), (10 : ℚ))] = some 10
    ∧ (10 : ℚ) ≠ 20 := by
  refine ⟨?_, ?_, ?_, ?_, ?_⟩
  · norm_num [track_performance, totalValue, lookupT, emptyState]
  · norm_num [track_performance, lookupT, emptyState]
  · norm_num [totalValue]
  · norm_num [lookupT]
  · norm_num

/-- Claim C2, amended: on a date with no existing sample the first
`track_performance` call inserts a sample; a second call on the same
date fails with the primary-key violation (`INSERT`, not upsert), the
state is unchanged, and exactly one sample remains for the date — the
one holding the FIRST call's value. -/
theorem c2_amended (px₁ px₂ : String → Option ℚ) (s : PortfolioState) (d : String)
    (hnew : lookupT d s.performance = none) :
    track_performance px₁ s d
        = Except.ok { s with performance := s.performance ++ [(d, totalValue px₁ s.holdings)] }
    ∧ track_performance px₂
        { s with performance := s.performance ++ [(d, totalValue px₁ s.holdings)] } d
        = Except.error "UNIQUE constraint failed: performance.date"
    ∧ lookupT d (s.performance ++ [(d, totalValue px₁ s.holdings)])
        = some (totalValue px₁ s.holdings)
    ∧ countKey d (s.performance ++ [(d, totalValue px₁ s.holdings)]) = 1 := by
  have h1 := lookupT_append_of_none d s.performance (totalValue px₁ s.holdings) hnew
  refine ⟨?_, ?_, h1, ?_⟩
  · simp [track_performance, hnew]
  · simp [track_performance, h1]
  · rw [countKey_append_self, countKey_eq_zero d s.performance hnew]

/-- Claim C2, witness: the amended statement evaluated on a ledger
holding 1 share of "A", with prices 10 then 20 on the same date. -/
theorem c2_witness :
    track_performance (fun t => if t = "A" then some 10 else none)
        { emptyState with holdings := [("A", ⟨1, 10⟩)] } "2024-01-01"
      = Except.ok { { emptyState with holdings := [("A", ⟨1, 10⟩)] } with
          performance := ({ emptyState with holdings := [("A", ⟨1, 10⟩)] } :
              PortfolioState).performance
            ++ [("2024-01-01", totalValue (fun t => if t = "A" then some 10 else none)
                  ({ emptyState with holdings := [("A", ⟨1, 10⟩)] } :
                      PortfolioState).holdings)] }
    ∧ track_performance (fun t => if t = "A" then some 20 else none)
        { { emptyState with holdings := [("A", ⟨1, 10⟩)] } with
          performance := ({ emptyState with holdings := [("A", ⟨1, 10⟩)] } :
              PortfolioState).performance
            ++ [("2024-01-01", totalValue (fun t => if t = "A" then some 10 else none)
                  ({ emptyState with holdings := [("A", ⟨1, 10⟩)] } :
                      PortfolioState).holdings)] } "2024-01-01"
      = Except.error "UNIQUE constraint failed: performance.date"
    ∧ lookupT "2024-01-01"
        (({ emptyState with holdings := [("A", ⟨1, 10⟩)] } : PortfolioState).performance
          ++ [("2024-01-01", totalValue (fun t => if t = "A" then some 10 else none)
                ({ emptyState with holdings := [("A", ⟨1, 10⟩)] } :
                    PortfolioState).holdings)])
        = some (totalValue (fun t => if t = "A" then some 10 else none)
            ({ emptyState with holdings := [("A", ⟨1, 10⟩)] } : PortfolioState).holdings)
    ∧ countKey "2024-01-01"
        (({ emptyState with holdings := [("A", ⟨1, 10⟩)] } : PortfolioState).performance
          ++ [("2024-01-01", totalValue (fun t => if t = "A" then some 10 else none)
                ({ emptyState with holdings := [("A", ⟨1, 10⟩)] } :
                    PortfolioState).holdings)]) = 1 :=
  c2_amended (fun t => if t = "A" then some 10 else none)
    (fun t => if t = "A" then some 20 else none)
    { emptyState with holdings := [("A", ⟨1, 10⟩)] } "2024-01-01" rfl

/-- Claim C5, counterexample: from the empty ledger, the single
operation `add_position("A", 0, 10)` (which the code accepts — see
claim C6) leaves ticker "A" present in the holdings set with shares =
0, violating the invariant that a ticker appears iff its shares are
strictly positive. -/
theorem c5_counterexample :
    lookupT "A" (applyOps emptyState [Op.add "A" 0 10]).holdings = some ⟨0, 10⟩
    ∧ ¬ HoldingsInv (applyOps emptyState [Op.add "A" 0 10]).holdings := by
  constructor
  · rfl
  · intro hInv
    have he : (applyOps emptyState [Op.add "A" 0 10]).holdings
        = [("A", (⟨0, 10⟩ : Holding))] := rfl
    have h0 := hInv ("A", ⟨0, 10⟩) (by rw [he]; exact List.mem_singleton_self _)
    simp at h0

/-- Claim C5, amended: the holdings invariant (every stored row has
strictly positive shares, so a ticker appears iff shares > 0 and shares
are never negative, the row being deleted exactly when the count
reaches 0) is preserved by `remove_position` for every argument and by
`add_position` whenever its shares argument is positive; it holds for
every sequence of such operations from an invariant-satisfying state.
`add_position` with shares ≤ 0 can break it (see the counterexample),
because the code lacks the `InvalidQuantity` guard. -/
theorem c5_amended (ops : List Op) (s : PortfolioState)
    (hInv : HoldingsInv s.holdings) (hpos : ∀ op ∈ ops, addPositive op) :
    HoldingsInv (applyOps s ops).holdings := by
  induction ops generalizing s with
  | nil => simpa [applyOps] using hInv
  | cons op rest ih =>
    have h1 : HoldingsInv (applyOp s op).holdings := by
      cases op with
      | add t sh pr =>
        exact add_holding_preserves_inv s t sh pr hInv (hpos _ (List.mem_cons_self _ _))
      | remove t sh => exact remove_holding_preserves_inv s t sh hInv
    have h2 := ih (applyOp s op) h1 (fun o ho => hpos o (List.mem_cons_of_mem _ ho))
    simpa [applyOps] using h2

/-- Claim C5, witness: buy 2 shares of "A", sell 1: the invariant holds
afterwards. -/
theorem c5_witness :
    HoldingsInv (applyOps emptyState [Op.add "A" 2 10, Op.remove "A" 1]).holdings :=
  c5_amended [Op.add "A" 2 10, Op.remove "A" 1] emptyState
    (by intro p hp; simp [emptyState] at hp)
    (by
      intro op hop
      simp at hop
      rcases hop with rfl | rfl
      · norm_num [addPositive]
      · simp [addPositive])

/-- Claim C9: a threshold `PriceAlert` fires exactly when
`(direction == 'above' and price > threshold) or (direction == 'below'
and price < threshold)`; `check_alerts` neither deletes nor disables
any row of the `alerts` table, and an immediate re-check fires exactly
the same alerts (level-triggered). -/
theorem c9_price_alerts_level_triggered (px : String → Option ℚ) (s : PortfolioState) :
    (check_alerts px s).1.alerts = s.alerts
    ∧ (∀ a : Alert, a ∈ (check_alerts px s).2.1 ↔ a ∈ s.alerts ∧ ∃ cur,
        px a.ticker = some cur ∧
          ((a.direction = "above" ∧ cur > a.threshold)
            ∨ (a.direction = "below" ∧ cur < a.threshold)))
    ∧ (check_alerts px ((check_alerts px s).1)).2.1 = (check_alerts px s).2.1 := by
  refine ⟨rfl, ?_, rfl⟩
  intro a
  rw [show (check_alerts px s).2.1 = s.alerts.filter (alertFires px) from rfl,
    List.mem_filter]
  refine and_congr_right fun _ => ?_
  cases hpx : px a.ticker with
  | none => simp [alertFires, hpx]
  | some cur => simp [alertFires, hpx]

theorem updAll_ticker (px : String → Option ℚ) (l : List PercentageAlert)
    (r : PercentageAlert) : (updAll px l r).ticker = r.ticker := by
  unfold updAll
  split
  · rfl
  · rfl

/-- Claim C10: the re-arm `UPDATE price_alerts SET last_checked_price =
? WHERE ticker = ?` is keyed by ticker, not by row id: when any
percentage alert on a ticker fires during `check_alerts`, EVERY
percentage-alert row with that ticker — including one whose own
threshold did not fire — ends with its baseline set to the current
price. -/
theorem c10_rearm_updates_all_rows_of_ticker (px : String → Option ℚ) (s : PortfolioState)
    (a b : PercentageAlert) (cur : ℚ)
    (ha : a ∈ s.price_alerts) (hb : b ∈ s.price_alerts) (htk : b.ticker = a.ticker)
    (hpx : px a.ticker = some cur)
    (hfire : |(cur - a.last_checked_price) / a.last_checked_price * 100|
        ≥ a.percentage_change) :
    (∀ r ∈ (check_alerts px s).1.price_alerts, r.ticker = a.ticker →
        r.last_checked_price = cur)
    ∧ { b with last_checked_price := cur } ∈ (check_alerts px s).1.price_alerts := by
  have hfa : pctFires px a = true := by simp [pctFires, hpx, hfire]
  have htf : tickerFired px s.price_alerts a.ticker = true := by
    simp only [tickerFired, List.any_eq_true]
    exact ⟨a, ha, by simp [hfa]⟩
  constructor
  · intro r hr hrt
    rw [check_alerts_pct_rows] at hr
    obtain ⟨q, hq, hqr⟩ := List.mem_map.mp hr
    have hqt : q.ticker = a.ticker := by
      rw [← hrt, ← hqr, updAll_ticker]
    rw [← hqr]
    unfold updAll
    rw [hqt, htf]
    simp [hqt, hpx]
  · rw [check_alerts_pct_rows]
    refine List.mem_map.mpr ⟨b, hb, ?_⟩
    unfold updAll
    have hbf : tickerFired px s.price_alerts b.ticker = true := by rw [htk]; exact htf
    rw [hbf]
    simp [htk, hpx]

/-- Claim C10, witness: two alerts on ticker "X", thresholds 5% and
50%, both with baseline 100; at price 106 only the 5% alert fires, yet
both rows end with baseline 106. -/
theorem c10_witness :
    (∀ r ∈ (check_alerts (fun t => if t = "X" then some 106 else none)
        { emptyState with
            price_alerts := [⟨1, "X", 5, 100⟩, ⟨2, "X", 50, 100⟩] }).1.price_alerts,
        r.ticker = (⟨1, "X", 5, 100⟩ : PercentageAlert).ticker →
          r.last_checked_price = 106)
    ∧ { (⟨2, "X", 50, 100⟩ : PercentageAlert) with last_checked_price := 106 }
        ∈ (check_alerts (fun t => if t = "X" then some 106 else none)
            { emptyState with
                price_alerts := [⟨1, "X", 5, 100⟩, ⟨2, "X", 50, 100⟩] }).1.price_alerts :=
  c10_rearm_updates_all_rows_of_ticker (fun t => if t = "X" then some 106 else none)
    { emptyState with price_alerts := [⟨1, "X", 5, 100⟩, ⟨2, "X", 50, 100⟩] }
    ⟨1, "X", 5, 100⟩ ⟨2, "X", 50, 100⟩ 106
    (List.mem_cons_self _ _)
    (by simp)
    rfl
    rfl
    (by norm_num)

/-- Claim C3, counterexample: two percentage alerts on ticker "X"
(thresholds 5% and 50%, both with baseline 100) at current price 106:
only the 5% alert fires, yet the 50% alert's baseline is also re-armed
to 106 — so a `PercentageAlert` can have its baseline set on an
evaluation in which it did NOT fire, contradicting the claim's "only
when it fires". -/
theorem c3_counterexample :
    (check_alerts (fun t => if t = "X" then some 106 else none)
        { emptyState with
            price_alerts := [⟨1, "X", 5, 100⟩, ⟨2, "X", 50, 100⟩] }).2.2
      = [⟨1, "X", 5, 100⟩]
    ∧ (check_alerts (fun t => if t = "X" then some 106 else none)
        { emptyState with
            price_alerts := [⟨1, "X", 5, 100⟩, ⟨2, "X", 50, 100⟩] }).1.price_alerts
      = [⟨1, "X", 5, 106⟩, ⟨2, "X", 50, 106⟩]
    ∧ (100 : ℚ) ≠ 106 := by
  refine ⟨?_, ?_, ?_⟩
  · norm_num [check_alerts, checkPctLoop, emptyState]
  · norm_num [check_alerts, checkPctLoop, emptyState]
  · norm_num

/-- Claim C3, amended: for a `PercentageAlert` that is the only alert
on its ticker, `check_alerts` fires it exactly when
`abs((price - baseline)/baseline*100) >= percentage_change`, re-arms
its baseline exactly when it fires, and after a firing an immediate
re-check at the unchanged price does not re-fire.  When several
percentage alerts share the ticker, a firing re-arms all of them (see
claim C10), so "re-arms only when it fires" holds only per ticker, not
per row. -/
theorem c3_amended (px : String → Option ℚ) (s : PortfolioState) (a : PercentageAlert)
    (cur : ℚ) (ha : a ∈ s.price_alerts) (hpx : px a.ticker = some cur)
    (huniq : ∀ b ∈ s.price_alerts, b.ticker = a.ticker → b = a)
    (hp : 0 < a.percentage_change) :
    (a ∈ (check_alerts px s).2.2 ↔
      |(cur - a.last_checked_price) / a.last_checked_price * 100| ≥ a.percentage_change)
    ∧ (∀ r ∈ (check_alerts px s).1.price_alerts, r.ticker = a.ticker →
        r.last_checked_price =
          if |(cur - a.last_checked_price) / a.last_checked_price * 100|
              ≥ a.percentage_change
          then cur else a.last_checked_price)
    ∧ (|(cur - a.last_checked_price) / a.last_checked_price * 100| ≥ a.percentage_change →
        ∀ r ∈ (check_alerts px s).1.price_alerts, r.ticker = a.ticker →
          r ∉ (check_alerts px ((check_alerts px s).1)).2.2) := by
  have key : ∀ r ∈ (check_alerts px s).1.price_alerts, r.ticker = a.ticker →
      r = updAll px s.price_alerts a := by
    intro r hr hrt
    rw [check_alerts_pct_rows] at hr
    obtain ⟨q, hq, hqr⟩ := List.mem_map.mp hr
    have hqt : q.ticker = a.ticker := by
      rw [← updAll_ticker px s.price_alerts q, hqr, hrt]
    rw [← hqr, huniq q hq hqt]
  have h1 : a ∈ (check_alerts px s).2.2 ↔
      |(cur - a.last_checked_price) / a.last_checked_price * 100| ≥ a.percentage_change := by
    rw [check_alerts_pct_fired, List.mem_filter]
    simp [ha, pctFires, hpx]
  refine ⟨h1, ?_, ?_⟩
  · intro r hr hrt
    rw [key r hr hrt]
    by_cases hc :
        |(cur - a.last_checked_price) / a.last_checked_price * 100| ≥ a.percentage_change
    · have hfa : pctFires px a = true := by simp [pctFires, hpx, hc]
      have htf : tickerFired px s.price_alerts a.ticker = true := by
        simp only [tickerFired, List.any_eq_true]
        exact ⟨a, ha, by simp [hfa]⟩
      unfold updAll
      rw [htf]
      simp [hpx, hc]
    · have hfa : pctFires px a = false := by simp [pctFires, hpx, hc]
      have htf : tickerFired px s.price_alerts a.ticker = false := by
        cases hq : tickerFired px s.price_alerts a.ticker
        · rfl
        · exfalso
          simp only [tickerFired, List.any_eq_true] at hq
          obtain ⟨x, hx, hxf⟩ := hq
          simp only [Bool.and_eq_true, decide_eq_true_eq] at hxf
          rw [huniq x hx hxf.2] at hxf
          rw [hfa] at hxf
          exact Bool.noConfusion hxf.1
      unfold updAll
      rw [htf]
      simp [hc]
  · intro hc r hr hrt
    have hfa : pctFires px a = true := by simp [pctFires, hpx, hc]
    have htf : tickerFired px s.price_alerts a.ticker = true := by
      simp only [tickerFired, List.any_eq_true]
      exact ⟨a, ha, by simp [hfa]⟩
    have hreq : r = { a with last_checked_price := cur } := by
      rw [key r hr hrt]
      unfold updAll
      rw [htf]
      simp [hpx]
    rw [check_alerts_pct_fired, List.mem_filter]
    rintro ⟨-, hfr⟩
    have hfalse : pctFires px r = false := by
      rw [hreq]
      simp [pctFires, hpx, hp.not_le]
    rw [hfalse] at hfr
    exact Bool.noConfusion hfr

/-- Claim C3, witness: a single 5% alert on "X" with baseline 100 at
price 106. -/
theorem c3_witness :
    ((⟨1, "X", 5, 100⟩ : PercentageAlert) ∈ (check_alerts
        (fun t => if t = "X" then some 106 else none)
        { emptyState with price_alerts := [⟨1, "X", 5, 100⟩] }).2.2 ↔
      |((106 : ℚ) - 100) / 100 * 100| ≥ 5)
    ∧ (∀ r ∈ (check_alerts (fun t => if t = "X" then some 106 else none)
          { emptyState with price_alerts := [⟨1, "X", 5, 100⟩] }).1.price_alerts,
        r.ticker = "X" →
          r.last_checked_price = if |((106 : ℚ) - 100) / 100 * 100| ≥ 5 then 106 else 100)
    ∧ (|((106 : ℚ) - 100) / 100 * 100| ≥ 5 →
        ∀ r ∈ (check_alerts (fun t => if t = "X" then some 106 else none)
            { emptyState with price_alerts := [⟨1, "X", 5, 100⟩] }).1.price_alerts,
          r.ticker = "X" →
            r ∉ (check_alerts (fun t => if t = "X" then some 106 else none)
              ((check_alerts (fun t => if t = "X" then some 106 else none)
                { emptyState with price_alerts := [⟨1, "X", 5, 100⟩] }).1)).2.2) :=
  c3_amended (fun t => if t = "X" then some 106 else none)
    { emptyState with price_alerts := [⟨1, "X", 5, 100⟩] }
    ⟨1, "X", 5, 100⟩ 106
    (List.mem_singleton_self _)
    rfl
    (by
      intro b hb _
      simpa using hb)
    (by norm_num)

/-- Claim C7, counterexample: two tickers with the identical (and hence
collinear) price history 1, 2, 4 have constant daily returns, so every
covariance entry is 0 and every candidate weight vector — here the
solver's own initial guess — has portfolio volatility exactly 0.  The
objective contains no zero-volatility guard: its divisor is 0 and no
value (in particular no large penalty value) is produced; numpy emits
±inf/nan from the unguarded division. -/
theorem c7_counterexample :
    portfolio_std_dev (init_guess 2)
        (fun _ _ => sampleCov (pct_change [1, 2, 4]) (pct_change [1, 2, 4])) = 0
    ∧ neg_sharpe (init_guess 2)
        (fun _ => mean (pct_change [1, 2, 4]))
        (fun _ _ => sampleCov (pct_change [1, 2, 4]) (pct_change [1, 2, 4]))
        default_risk_free_rate
      = none := by
  have hcov : sampleCov (pct_change [1, 2, 4]) (pct_change [1, 2, 4]) = 0 := by
    norm_num [sampleCov, pct_change, mean]
  have hquad : quadForm (init_guess 2)
      (fun _ _ => sampleCov (pct_change [1, 2, 4]) (pct_change [1, 2, 4])) = 0 := by
    simp [quadForm, covDot, hcov]
  constructor
  · simp [portfolio_std_dev, hquad]
  · exact neg_sharpe_none_of_quadForm_zero _ _ _ _ hquad

/-- Claim C7, amended: when the sample covariance of the (identical)
return series is 0 — e.g. collinear tickers with constant returns — the
covariance matrix is all zeros, every candidate weight vector has
volatility 0, and the source's unguarded objective produces no value at
all (numpy: ±inf/nan from dividing by 0.0) instead of the claimed
large penalty value; the code establishes no constraint-satisfaction
guarantee for the weights `optimize()` then returns. -/
theorem c7_amended (p : List ℚ) (n : ℕ) (w : Fin n → ℚ) (rf : ℚ)
    (hvar : sampleCov (pct_change p) (pct_change p) = 0) :
    neg_sharpe w (fun _ => mean (pct_change p))
      (fun _ _ => sampleCov (pct_change p) (pct_change p)) rf = none := by
  apply neg_sharpe_none_of_quadForm_zero
  simp [quadForm, covDot, hvar]

/-- Claim C7, witness: the amended statement evaluated on the identical
price series 1, 2, 4 for two tickers at the equal-weight initial
guess. -/
theorem c7_witness :
    sampleCov (pct_change [1, 2, 4]) (pct_change [1, 2, 4]) = 0
    ∧ neg_sharpe (init_guess 2) (fun _ => mean (pct_change [1, 2, 4]))
        (fun _ _ => sampleCov (pct_change [1, 2, 4]) (pct_change [1, 2, 4]))
        default_risk_free_rate = none :=
  have h : sampleCov (pct_change [1, 2, 4]) (pct_change [1, 2, 4]) = 0 := by
    norm_num [sampleCov, pct_change, mean]
  ⟨h, c7_amended [1, 2, 4] 2 (init_guess 2) default_risk_free_rate h⟩

/-- Claim C8: the optimizer's formulation matches the spec: the
objective is the negative Sharpe ratio built from
`annual_return = 252 * sum(w_i * mean_returns_i)` and
`annual_volatility = sqrt(252) * sqrt(wᵗ·Cov·w)` over the daily simple
returns `r_t = price_t/price_{t-1} - 1`, subject to `sum(w) = 1` with
box bounds `0 ≤ w_i ≤ 1`, starting from the equal-weight guess `1/n`,
with `risk_free_rate` defaulting to 0.01. -/
theorem c8_optimizer_formulation :
    (∀ (n : ℕ) (w μ : Fin n → ℚ) (cov : Fin n → Fin n → ℚ) (rf : ℚ),
        neg_sharpe w μ cov rf = spec_neg_sharpe w μ cov rf)
    ∧ (∀ (n : ℕ) (w μ : Fin n → ℚ), portfolio_return w μ = spec_annual_return w μ)
    ∧ (∀ (n : ℕ) (w : Fin n → ℚ) (cov : Fin n → Fin n → ℚ),
        portfolio_std_dev w cov = spec_annual_volatility w cov)
    ∧ (∀ (n : ℕ) (x : Fin n → ℚ), constraint_fun x = 0 ↔ (∑ i, x i) = 1)
    ∧ (∀ (n : ℕ) (i : Fin n), code_bounds n i = (0, 1))
    ∧ (∀ (n : ℕ) (i : Fin n), init_guess n i = 1 / (n : ℚ))
    ∧ default_risk_free_rate = 1 / 100
    ∧ (∀ p : List ℚ, pct_change p = spec_daily_returns p) := by
  refine ⟨fun n w μ cov rf => neg_sharpe_eq_spec w μ cov rf,
    fun n w μ => portfolio_return_eq_spec w μ,
    fun n w cov => portfolio_std_dev_eq_spec w cov,
    fun n x => ?_, fun n i => rfl, fun n i => rfl, by norm_num [default_risk_free_rate],
    fun p => pct_change_eq_spec p⟩
  simp [constraint_fun, sub_eq_zero]
